import Mathlib

/-!
Shallow embedding of the autoencoder / k-means notebook
(src/AutoEncoder_KMeans_MNIST.ipynb).

Numeric values are modelled by `ℚ`.  Parameter initialization is modelled by
an explicit stream `s : Nat → ℚ` of fresh values together with a position
counter: each `torch.nn.Linear(inF, outF)` construction consumes the next
`outF * inF + outF` stream values (its weight matrix and bias vector) and
advances the position, which models torch's independent fresh initialization
of every layer.  Dropout randomness is modelled by an explicit source of
uniform draws in `[0, 1)`; an element is zeroed when its draw is `< p` and
scaled by `1 / (1 - p)` otherwise (inverted dropout, as in torch), and
dropout is the identity in evaluation mode.  The gradient update performed
by `loss.backward(); optimizer.step()` is not re-implemented; the training
loops are parameterized by an abstract per-batch parameter update function
`upd : ℚ → AutoEncoder → List (List ℚ) → AutoEncoder` (learning rate, model,
batch).  Python exceptions that the notebook can actually raise at the
modelled operations are represented by `PyError`.
-/

/-- Python-level errors reachable in the modelled code paths:
`indexError` for an out-of-range sequence index (e.g. `hidden_layers[0]` on an
empty tuple), `fileNotFoundError` for `torch.load` on an absent path. -/
inductive PyError where
  | indexError : PyError
  | fileNotFoundError : PyError
deriving DecidableEq, Repr

/-- A `torch.nn.Linear(inF, outF)` layer: its `in_features`/`out_features`
attributes, its weight matrix (a list of `outF` rows of length `inF`) and its
bias vector (length `outF`). -/
structure Linear where
  inF : Nat
  outF : Nat
  weight : List (List ℚ)
  bias : List ℚ
deriving DecidableEq, Repr

/-- Construction of `torch.nn.Linear(inF, outF)`: draws the weight matrix and
the bias vector from the initialization stream `s` starting at position `pos`,
and returns the layer together with the next free stream position. -/
def mkLinear (s : Nat → ℚ) (pos : Nat) (inF outF : Nat) : Linear × Nat :=
  (⟨inF, outF,
    (List.range outF).map (fun i => (List.range inF).map (fun j => s (pos + i * inF + j))),
    (List.range outF).map (fun i => s (pos + outF * inF + i))⟩,
   pos + outF * inF + outF)

/-- Dot product of a weight row with an input vector. -/
def dotQ (row x : List ℚ) : ℚ :=
  (List.zipWith (fun a b => a * b) row x).sum

/-- Application of a linear layer to a vector: one affine form per
(weight-row, bias) pair.  At every call site in the notebook the input has
length `inF`; the output always has one entry per row/bias pair. -/
def Linear.app (l : Linear) (x : List ℚ) : List ℚ :=
  List.zipWith (fun row b => dotQ row x + b) l.weight l.bias

/-- The default activation `nn.ReLU()`. -/
def relu (v : ℚ) : ℚ := max 0 v

/-- Map with an explicit running index (used to give each vector entry its own
dropout draw). -/
def idxMap (f : Nat → ℚ → ℚ) : Nat → List ℚ → List ℚ
  | _, [] => []
  | i, v :: vs => f i v :: idxMap f (i + 1) vs

/-- A `nn.Dropout(p)` application.  In training mode entry `i` is zeroed when
its uniform draw `u i` is `< p` and scaled by `1 / (1 - p)` otherwise
(inverted dropout); in evaluation mode dropout is the identity. -/
def dropoutApp (training : Bool) (p : ℚ) (u : Nat → ℚ) (x : List ℚ) : List ℚ :=
  if training then idxMap (fun i v => if u i < p then 0 else v / (1 - p)) 0 x else x

/-- The `Encoder.__init__` loop
`for i in range(0, len(hidden_layers) - 1): Linear(hidden[i], hidden[i+1])`,
expressed by chaining consecutive pairs of the width list; threads the
initialization-stream position. -/
def mkChain (s : Nat → ℚ) (pos : Nat) : List Nat → List Linear × Nat
  | a :: b :: rest =>
    let lp := mkLinear s pos a b
    let rec' := mkChain s lp.2 (b :: rest)
    (lp.1 :: rec'.1, rec'.2)
  | _ => ([], pos)

/-- The `Decoder.__init__` loop
`for i in range(0, n_layers): Linear(ws[i], ws[i+1])`: builds `rem` layers
starting at index `i` of the width list `ws`, failing with `IndexError` when
an index is out of range (the loop bound comes from the encoder's `n_layers`
field, not from `len(ws)`). -/
def mkChainN (s : Nat → ℚ) (ws : List Nat) : Nat → Nat → Nat → Except PyError (List Linear × Nat)
  | pos, _, 0 => .ok ([], pos)
  | pos, i, rem + 1 =>
    match ws.get? i, ws.get? (i + 1) with
    | some a, some b =>
      let lp := mkLinear s pos a b
      match mkChainN s ws lp.2 (i + 1) rem with
      | .ok (ls, p2) => .ok (lp.1 :: ls, p2)
      | .error e => .error e
    | _, _ => .error .indexError

/-- The `Encoder` module: `input_size`, the `hidden_layers` tuple as given,
the input-projection layer `input_layer`, the chained layers
`dense_0 .. dense_(n_layers - 1)` (kept as a positional list), the layer count
`n_layers`, the activation and the dropout rate. -/
structure Encoder where
  input_size : Nat
  hidden_layers : List Nat
  input_layer : Linear
  dense : List Linear
  n_layers : Nat
  activation : ℚ → ℚ
  dropout_rate : ℚ

/-- The body of `Encoder.__init__(input_size, hidden_layers, dropout_rate,
activation)`.  It performs no validation of the width list: the only failure
is `hidden_layers[0]` on an empty tuple (`IndexError`).  `n_layers` counts the
loop iterations, i.e. `len(hidden_layers) - 1`. -/
def Encoder.init (s : Nat → ℚ) (pos : Nat) (input_size : Nat) (hidden_layers : List Nat)
    (dropout_rate : ℚ) (activation : ℚ → ℚ) : Except PyError (Encoder × Nat) :=
  match hidden_layers with
  | [] => .error .indexError
  | h0 :: rest =>
    let inp := mkLinear s pos input_size h0
    let ch := mkChain s inp.2 (h0 :: rest)
    .ok (⟨input_size, h0 :: rest, inp.1, ch.1, (h0 :: rest).length - 1,
          activation, dropout_rate⟩, ch.2)

/-- The shared shape of the per-layer loops of `Encoder.forward` and
`Decoder.forward`: starting at layer index `i`, apply `rem` times
`x = dropout(activation(dense_i(x)))`, reading `dense_i` by position (the
source reads it reflectively with `getattr`; a missing layer is a Python
`AttributeError`, modelled as `none`).  The draw source `u` gives layer `i`
its own per-entry draws `u i`. -/
def denseLoop (act : ℚ → ℚ) (p : ℚ) (training : Bool) (u : Nat → Nat → ℚ)
    (dense : List Linear) : Nat → Nat → List ℚ → Option (List ℚ)
  | _, 0, x => some x
  | i, rem + 1, x =>
    match dense.get? i with
    | none => none
    | some l => denseLoop act p training u dense (i + 1) rem
        (dropoutApp training p (u i) ((l.app x).map act))

/-- The body of `Encoder.forward`: activation after the input layer, then the
loop `for i in range(0, n_layers - 1)` with activation and dropout, then the
final layer `dense_(n_layers - 1)` with no activation and no dropout. -/
def Encoder.forward (e : Encoder) (training : Bool) (u : Nat → Nat → ℚ) (x : List ℚ) :
    Option (List ℚ) :=
  let x0 := (e.input_layer.app x).map e.activation
  match denseLoop e.activation e.dropout_rate training u e.dense 0 (e.n_layers - 1) x0 with
  | none => none
  | some xm =>
    match e.dense.get? (e.n_layers - 1) with
    | none => none
    | some outL => some (outL.app xm)

/-- The `Decoder` module.  Note that (as in the source) its `hidden_layers`
field holds the reverse of the encoder's width list. -/
structure Decoder where
  hidden_layers : List Nat
  dense : List Linear
  output_layer : Linear
  n_layers : Nat
  activation : ℚ → ℚ
  dropout_rate : ℚ

/-- The body of `Decoder.__init__(encoder, activation)`: reverse the encoder's
width list, build `encoder.n_layers` chained layers over it by index, then the
output-projection `Linear(reversed[-1], encoder.input_size)`.  The decoder
topology is derived entirely from the encoder (it is never passed by a
caller); the dropout rate is taken from the encoder. -/
def Decoder.init (s : Nat → ℚ) (pos : Nat) (enc : Encoder) (activation : ℚ → ℚ) :
    Except PyError (Decoder × Nat) :=
  let rev := enc.hidden_layers.reverse
  match mkChainN s rev pos 0 enc.n_layers with
  | .error e => .error e
  | .ok (ds, p1) =>
    match rev.getLast? with
    | none => .error .indexError
    | some wlast =>
      let out := mkLinear s p1 wlast enc.input_size
      .ok (⟨rev, ds, out.1, enc.n_layers, activation, enc.dropout_rate⟩, out.2)

/-- The body of `Decoder.forward`: every chained layer with activation and
dropout (`for i in range(0, n_layers)`), then the output layer with no
activation and no dropout. -/
def Decoder.forward (d : Decoder) (training : Bool) (u : Nat → Nat → ℚ) (x : List ℚ) :
    Option (List ℚ) :=
  match denseLoop d.activation d.dropout_rate training u d.dense 0 d.n_layers x with
  | none => none
  | some xm => some (d.output_layer.app xm)

/-- The width signature of a decoder: the `(in_features, out_features)` pairs
of its chained layers followed by those of the output layer. -/
def Decoder.topology (d : Decoder) : List (Nat × Nat) :=
  d.dense.map (fun l => (l.inF, l.outF)) ++ [(d.output_layer.inF, d.output_layer.outF)]

/-- The `AutoEncoder` module: one encoder, one decoder derived from it, the
width list, and the `nn.Module.training` flag (toggled by `model.train()` /
`model.eval()`; `True` on construction, as in torch). -/
structure AutoEncoder where
  encoder : Encoder
  decoder : Decoder
  hidden_layers : List Nat
  training : Bool

/-- The body of `AutoEncoder.__init__(input_size, hidden_layers, dropout_rate,
activation)`.  As in the source, the `activation` argument is NOT forwarded:
`Encoder(input_size, hidden_layers, dropout_rate)` and `Decoder(self.encoder)`
are called without it, so both submodules use their default `nn.ReLU()`. -/
def AutoEncoder.init (s : Nat → ℚ) (pos : Nat) (input_size : Nat) (hidden_layers : List Nat)
    (dropout_rate : ℚ) (activation : ℚ → ℚ) : Except PyError (AutoEncoder × Nat) :=
  match Encoder.init s pos input_size hidden_layers dropout_rate relu with
  | .error e => .error e
  | .ok (enc, p1) =>
    match Decoder.init s p1 enc relu with
    | .error e => .error e
    | .ok (dec, p2) => .ok (⟨enc, dec, hidden_layers, true⟩, p2)

/-- `model.train()`. -/
def AutoEncoder.trainMode (m : AutoEncoder) : AutoEncoder :=
  { m with training := true }

/-- `model.eval()`. -/
def AutoEncoder.evalMode (m : AutoEncoder) : AutoEncoder :=
  { m with training := false }

/-- The body of `AutoEncoder.forward`: encode, decode, return the pair
`(encoded, decoded)`.  Encoder layer `i` uses the draws `u (2 * i)` and
decoder layer `i` the draws `u (2 * i + 1)`, so the two submodules consume
disjoint dropout randomness. -/
def AutoEncoder.forward (m : AutoEncoder) (u : Nat → Nat → ℚ) (x : List ℚ) :
    Option (List ℚ × List ℚ) :=
  match m.encoder.forward m.training (fun i => u (2 * i)) x with
  | none => none
  | some encoded =>
    match m.decoder.forward m.training (fun i => u (2 * i + 1)) encoded with
    | none => none
    | some decoded => some (encoded, decoded)

/-- The persisted checkpoint storage: a map from path to the pickled model
(`torch.save` stores the entire module object, including its `training`
flag). -/
def Store : Type := String → Option AutoEncoder

/-- The empty storage (no checkpoint written yet). -/
def emptyStore : Store := fun _ => none

/-- `torch.save(model, path)`. -/
def torchSave (store : Store) (path : String) (m : AutoEncoder) : Store :=
  fun p => if p = path then some m else store p

/-- `torch.load(path)`: returns the stored module wholesale; an absent path is
a `FileNotFoundError`.  No topology metadata is compared with anything: the
caller rebinds its `model` variable to whatever was stored. -/
def torchLoad (store : Store) (path : String) : Except PyError AutoEncoder :=
  match store path with
  | some m => .ok m
  | none => .error .fileNotFoundError

/-- Arithmetic mean of a loss list, `np.mean(losses)` (the empty case is never
exercised with the notebook's non-empty dataloader). -/
def listMean (ls : List ℚ) : ℚ := ls.sum / ls.length

/-- Round-half-to-even of a rational to an integer, the rounding used by
`np.round`. -/
def roundHalfEven (x : ℚ) : ℤ :=
  if x - ⌊x⌋ < 1 / 2 then ⌊x⌋
  else if 1 / 2 < x - ⌊x⌋ then ⌊x⌋ + 1
  else if ⌊x⌋ % 2 = 0 then ⌊x⌋ else ⌊x⌋ + 1

/-- The notebook's `np.round(value, 5)`. -/
def npRound5 (x : ℚ) : ℚ := (roundHalfEven (x * 100000) : ℚ) / 100000

/-- The comparison `mean_loss < best_loss` where `best_loss` starts as
`np.infty` (modelled by `none`) and later holds the numeric value of whatever
was assigned to the variable. -/
def ltBest (m : ℚ) (b : Option ℚ) : Bool :=
  match b with
  | none => true
  | some v => decide (m < v)

/-- The reconstruction loss `nn.MSELoss()(output, x_batch)`: the mean of the
squared entrywise differences over the whole batch. -/
def mseLoss (outs xs : List (List ℚ)) : ℚ :=
  let rows := (List.zip outs xs).map (fun p =>
    (List.zipWith (fun a b => (a - b) * (a - b)) p.1 p.2))
  (rows.map List.sum).sum / ((rows.map List.length).sum : ℚ)

/-- The decoded outputs of a whole batch, `model(x_batch)[1]`: each row is
pushed through `AutoEncoder.forward` with its own dropout draws (`u r` for row
`r`) and the decoded component is kept.  Fails when any row's forward pass
fails. -/
def batchDecoded (m : AutoEncoder) (u : Nat → Nat → Nat → ℚ) (xb : List (List ℚ)) :
    Option (List (List ℚ)) :=
  ((List.range xb.length).zip xb).mapM (fun rx =>
    (m.forward (u rx.1) rx.2).map (fun pr => pr.2))

/-- The inner batch loop shared by both training phases:
`for x_batch, y_batch in dataloader: zero_grad(); output = model(x_batch)[1];
loss = loss_(output, x_batch); losses.append(loss.item()); loss.backward();
optimizer.step()`.  The gradient update is the abstract `upd` applied with the
current learning rate; `u b` supplies batch `b`'s dropout draws; the batch
losses are appended in order to the accumulator `ls`. -/
def runBatches (upd : ℚ → AutoEncoder → List (List ℚ) → AutoEncoder) (lr : ℚ)
    (u : Nat → Nat → Nat → Nat → ℚ) :
    List (List (List ℚ)) → Nat → AutoEncoder → List ℚ → Option (AutoEncoder × List ℚ)
  | [], _, m, ls => some (m, ls)
  | xb :: rest, b, m, ls =>
    match batchDecoded m (u b) xb with
    | none => none
    | some outs =>
      runBatches upd lr u rest (b + 1) (upd lr m xb) (ls ++ [mseLoss outs xb])

/-- The mutable state shared by the notebook's training cells: the `model`
variable, the `losses` accumulator, the `best_loss` variable (`none` while it
is `np.infty`), the optimizer's learning rate, the checkpoint storage, and two
observation traces: the `mean_loss` value computed at the end of each epoch
and the list of epoch indices at which `torch.save` was executed. -/
structure TrainSt where
  model : AutoEncoder
  losses : List ℚ
  bestLoss : Option ℚ
  lr : ℚ
  store : Store
  means : List ℚ
  saveLog : List Nat

/-- Path of the pre-training checkpoint. -/
def preCkptPath : String := "./torch_models/autoencoder"

/-- Path of the fine-tuning checkpoint. -/
def fineCkptPath : String := "./torch_models/autoencoder-finetuned"

/-- One epoch of the pre-training cell: reset `losses = []`, run the batch
loop, compute `mean_loss = np.round(np.mean(losses), 5)`, advance the
`StepLR(step_size=100, gamma=0.1)` scheduler, and then — only when
`mean_loss < best_loss` — execute `best_loss = loss` (the LAST batch's loss
value, not `mean_loss`) and `torch.save(model, preCkptPath)`. -/
def preEpochStep (upd : ℚ → AutoEncoder → List (List ℚ) → AutoEncoder)
    (u : Nat → Nat → Nat → Nat → Nat → ℚ) (batches : Nat → List (List (List ℚ)))
    (epoch : Nat) (st : TrainSt) : Option TrainSt :=
  match runBatches upd st.lr (u epoch) (batches epoch) 0 st.model [] with
  | none => none
  | some (m1, ls) =>
    let meanLoss := npRound5 (listMean ls)
    let lr1 := if (epoch + 1) % 100 = 0 then st.lr / 10 else st.lr
    if ltBest meanLoss st.bestLoss then
      match ls.getLast? with
      | none => none
      | some lastBatchLoss =>
        some ⟨m1, ls, some lastBatchLoss, lr1,
              torchSave st.store preCkptPath m1, st.means ++ [meanLoss],
              st.saveLog ++ [epoch]⟩
    else
      some ⟨m1, ls, st.bestLoss, lr1, st.store, st.means ++ [meanLoss], st.saveLog⟩

/-- One epoch of the fine-tuning cell: the SAME `losses` list keeps
accumulating (the cell never resets it), `mean_loss` is computed over the
whole accumulated list, no scheduler exists (the learning rate is left
untouched), and `torch.save(model, fineCkptPath)` runs unconditionally at the
end of every epoch. -/
def fineEpochStep (upd : ℚ → AutoEncoder → List (List ℚ) → AutoEncoder)
    (u : Nat → Nat → Nat → Nat → Nat → ℚ) (batches : Nat → List (List (List ℚ)))
    (epoch : Nat) (st : TrainSt) : Option TrainSt :=
  match runBatches upd st.lr (u epoch) (batches epoch) 0 st.model st.losses with
  | none => none
  | some (m1, ls) =>
    let meanLoss := npRound5 (listMean ls)
    some ⟨m1, ls, st.bestLoss, st.lr,
          torchSave st.store fineCkptPath m1, st.means ++ [meanLoss],
          st.saveLog ++ [epoch]⟩

/-- The epoch loop `for epoch in range(n_epochs)`: runs `n` steps of `step`
starting at epoch index `e`. -/
def runEpochs (step : Nat → TrainSt → Option TrainSt) : Nat → Nat → TrainSt → Option TrainSt
  | _, 0, st => some st
  | e, n + 1, st =>
    match step e st with
    | none => none
    | some st1 => runEpochs step (e + 1) n st1

/-- The pre-training setup cell: construct the `AutoEncoder`, call
`model.train()`, set `lr = 0.1`, `best_loss = np.infty`, and start with no
recorded losses and an untouched checkpoint store. -/
def preTrainInit (s : Nat → ℚ) (pos : Nat) (input_size : Nat) (hidden_layers : List Nat)
    (dropout_rate : ℚ) (store0 : Store) : Except PyError TrainSt :=
  match AutoEncoder.init s pos input_size hidden_layers dropout_rate relu with
  | .error e => .error e
  | .ok (m, _) =>
    .ok ⟨m.trainMode, [], none, 1 / 10, store0, [], []⟩

/-- The fine-tuning setup cell: `model = torch.load(preCkptPath)`,
`model.eval()`, a fresh optimizer with `lr = 0.1`, `best_loss = np.infty`.
The `losses` list is NOT reset — the cell simply keeps the global list left
over from pre-training. -/
def fineTuneSetup (st : TrainSt) : Option TrainSt :=
  match torchLoad st.store preCkptPath with
  | .error _ => none
  | .ok m => some { st with model := m.evalMode, lr := 1 / 10, bestLoss := none }

/-- The encoded outputs of a whole data matrix, `model(Tensor(X))[0]`. -/
def batchEncoded (m : AutoEncoder) (u : Nat → Nat → Nat → ℚ) (xs : List (List ℚ)) :
    Option (List (List ℚ)) :=
  ((List.range xs.length).zip xs).mapM (fun rx =>
    (m.forward (u rx.1) rx.2).map (fun pr => pr.1))

/-- The pre-trained-embedding evaluation cell:
`model = torch.load("./torch_models/autoencoder");
X_embedded_pretrained = model(Tensor(X))[0]`.  Note that the cell does NOT
call `model.eval()` — the loaded module keeps whatever `training` flag it was
saved with. -/
def evalPretrainedEmbed (store : Store) (u : Nat → Nat → Nat → ℚ) (xs : List (List ℚ)) :
    Option (List (List ℚ)) :=
  match torchLoad store preCkptPath with
  | .error _ => none
  | .ok m => batchEncoded m u xs

/-- Whether an `Except` computation succeeded (i.e. no Python exception was
raised). -/
def isOkE {α : Type} (x : Except PyError α) : Bool :=
  match x with
  | .ok _ => true
  | .error _ => false

/-- The derived decoder width signature of an autoencoder configuration:
construct the encoder and then its decoder, and return the decoder's
`(in_features, out_features)` pairs. -/
def decoderTopoOf (s : Nat → ℚ) (pos input_size : Nat) (hs : List Nat) (rate : ℚ) :
    Option (List (Nat × Nat)) :=
  match Encoder.init s pos input_size hs rate relu with
  | .error _ => none
  | .ok (enc, p1) =>
    match Decoder.init s p1 enc relu with
    | .error _ => none
    | .ok (dec, _) => some dec.topology

/-- Placeholder layer used only as a fallback when destructuring a
construction that is separately proved to succeed. -/
def defaultLinear : Linear := ⟨0, 0, [], []⟩

/-- Fallback encoder (never reached in the proofs below). -/
def defaultEncoder : Encoder := ⟨0, [], defaultLinear, [], 0, relu, 0⟩

/-- Fallback decoder (never reached in the proofs below). -/
def defaultDecoder : Decoder := ⟨[], [], defaultLinear, 0, relu, 0⟩

/-- Fallback autoencoder (never reached in the proofs below). -/
def defaultAutoEncoder : AutoEncoder := ⟨defaultEncoder, defaultDecoder, [], true⟩

/-- Fallback training state (never reached in the proofs below). -/
def defaultTrainSt : TrainSt := ⟨defaultAutoEncoder, [], none, 0, emptyStore, [], []⟩

/-- Extract the encoder of a successful construction. -/
def encOf (x : Except PyError (Encoder × Nat)) : Encoder × Nat :=
  match x with
  | .ok v => v
  | .error _ => (defaultEncoder, 0)

/-- Extract the decoder of a successful construction. -/
def decOf (x : Except PyError (Decoder × Nat)) : Decoder :=
  match x with
  | .ok v => v.1
  | .error _ => defaultDecoder

/-- Extract the model of a successful construction. -/
def aeOf (x : Except PyError (AutoEncoder × Nat)) : AutoEncoder :=
  match x with
  | .ok v => v.1
  | .error _ => defaultAutoEncoder

/-- Extract a successfully initialized training state. -/
def stOf (x : Except PyError TrainSt) : TrainSt :=
  match x with
  | .ok v => v
  | .error _ => defaultTrainSt

/-- An initialization stream of all zeros (every weight and bias 0). -/
def sZero : Nat → ℚ := fun _ => 0

/-- An initialization stream of all ones (every weight and bias 1). -/
def sOne : Nat → ℚ := fun _ => 1

/-- A parameter update that leaves the model unchanged (one concrete instance
of the abstract gradient step). -/
def updId : ℚ → AutoEncoder → List (List ℚ) → AutoEncoder := fun _ m _ => m

/-- Dropout draws all equal to 1, i.e. every entry is kept (epoch/batch/row
indexed, as consumed by the training loops). -/
def uAllOne : Nat → Nat → Nat → Nat → Nat → ℚ := fun _ _ _ _ _ => 1

/-- Evaluation-time draws that keep every entry. -/
def uKeep : Nat → Nat → Nat → ℚ := fun _ _ _ => 1

/-- Evaluation-time draws that zero every dropped-out entry (`0 < p`). -/
def uDrop : Nat → Nat → Nat → ℚ := fun _ _ _ => 0

/-- A zero-weight training state: `input_size = 1`, widths `[1, 1]`, dropout
`0.2`, every parameter 0, empty store. -/
def stZ : TrainSt := stOf (preTrainInit sZero 0 1 [1, 1] (1 / 5) emptyStore)

/-- Concrete pre-training data for two epochs: epoch 0 has two one-row batches
`[2]` and `[0]`; epoch 1 has the single batch `[1]`. -/
def batchesTwo : Nat → List (List (List ℚ)) :=
  fun e => if e = 0 then [[[2]], [[0]]] else if e = 1 then [[[1]]] else []

/-- Concrete one-batch pre-training data: every epoch is the single one-row
batch `[2]`. -/
def batchesPre : Nat → List (List (List ℚ)) := fun _ => [[[2]]]

/-- Concrete one-batch fine-tuning data: every epoch is the single one-row
batch `[0]`. -/
def batchesFine : Nat → List (List (List ℚ)) := fun _ => [[[0]]]

/-- An all-ones training state with one genuinely dropout-affected encoder
layer: `input_size = 1`, widths `[1, 1, 1]`, dropout `0.2`. -/
def stO : TrainSt := stOf (preTrainInit sOne 0 1 [1, 1, 1] (1 / 5) emptyStore)

/-- Concrete data for the dropout experiment: the single one-row batch
`[1]`. -/
def batchesOne : Nat → List (List (List ℚ)) := fun _ => [[[1]]]

/-- The checkpoint store produced by one concrete pre-training epoch of the
all-ones model. -/
def storeO : Store :=
  ((runEpochs (preEpochStep updId uAllOne batchesOne) 0 1 stO).map TrainSt.store).getD emptyStore

/-- A concrete small autoencoder: `input_size = 1`, widths `[1, 1]`. -/
def mSmall : AutoEncoder := aeOf (AutoEncoder.init sOne 0 1 [1, 1] (1 / 5) relu)

/-- A concrete autoencoder of a different topology: `input_size = 3`, widths
`[2, 2]`. -/
def mBig : AutoEncoder := aeOf (AutoEncoder.init sOne 0 3 [2, 2] (1 / 5) relu)

/-- A store holding, at the pre-training checkpoint path, a model whose
topology disagrees with `mBig`. -/
def storeMismatch : Store := torchSave emptyStore preCkptPath mSmall

/-- Encoder with width schedule `[1, 2, 3]` and input width 4, and its
construction end position. -/
def enc123 : Encoder × Nat := encOf (Encoder.init sOne 0 4 [1, 2, 3] (1 / 5) relu)

/-- The decoder derived from `enc123`. -/
def dec123 : Decoder := decOf (Decoder.init sOne enc123.2 enc123.1 relu)

/-- Encoder with the reversed width schedule `[3, 2, 1]` and input width 4. -/
def enc321 : Encoder × Nat := encOf (Encoder.init sOne 0 4 [3, 2, 1] (1 / 5) relu)

/-- The decoder derived from `enc321`. -/
def dec321 : Decoder := decOf (Decoder.init sOne enc321.2 enc321.1 relu)

/-- The epoch indices `e, e + 1, ..., e + n - 1` of a run of `n` epochs
starting at `e`. -/
def epochsFrom : Nat → Nat → List Nat
  | _, 0 => []
  | e, n + 1 => e :: epochsFrom (e + 1) n

/-- The same concrete construction as `mSmall` but passing a non-default
activation argument to the `AutoEncoder` constructor. -/
def mSmallId : AutoEncoder := aeOf (AutoEncoder.init sOne 0 1 [1, 1] (1 / 5) (fun v => v))

/-- The state after two concrete fine-tuning epochs on the zero-weight
model. -/
def stFine2 : TrainSt :=
  (runEpochs (fineEpochStep updId uAllOne batchesFine) 0 2 stZ).getD defaultTrainSt

/-- The state after one concrete pre-training epoch of the all-ones model. -/
def stAfterPre : TrainSt :=
  (runEpochs (preEpochStep updId uAllOne batchesOne) 0 1 stO).getD defaultTrainSt

/-- The state right after the concrete fine-tuning setup cell. -/
def stSetup : TrainSt := (fineTuneSetup stAfterPre).getD defaultTrainSt

/-- The state after one concrete fine-tuning epoch following `stSetup`. -/
def stFineRun : TrainSt :=
  (runEpochs (fineEpochStep updId uAllOne batchesOne) 0 1 stSetup).getD defaultTrainSt

/-- Extract a successful decoder construction together with its end
position. -/
def decPosOf (x : Except PyError (Decoder × Nat)) : Decoder × Nat :=
  match x with
  | .ok v => v
  | .error _ => (defaultDecoder, 0)

/-- The decoder derived from `enc123`, with its construction end position. -/
def dp123 : Decoder × Nat := decPosOf (Decoder.init sOne enc123.2 enc123.1 relu)

/-- The decoder derived from `enc321`, with its construction end position. -/
def dp321 : Decoder × Nat := decPosOf (Decoder.init sOne enc321.2 enc321.1 relu)

section

set_option maxRecDepth 10000

attribute [local semireducible] Rat.add Rat.mul Rat.inv Rat.sub

/-- A successful `Encoder.init` stores the activation argument it was given. -/
theorem Encoder.init_activation (s : Nat → ℚ) (pos input_size : Nat) (hs : List Nat)
    (rate : ℚ) (act : ℚ → ℚ) (enc : Encoder) (p' : Nat)
    (h : Encoder.init s pos input_size hs rate act = .ok (enc, p')) :
    enc.activation = act := by
  cases hs with
  | nil => simp [Encoder.init] at h
  | cons h0 rest =>
    simp only [Encoder.init, Except.ok.injEq, Prod.mk.injEq] at h
    obtain ⟨h1, -⟩ := h
    rw [← h1]

/-- A successful `Decoder.init` derives its width list by reversing the
encoder's, stores the activation argument it was given, copies the encoder's
layer count and dropout rate. -/
theorem Decoder.init_fields (s : Nat → ℚ) (pos : Nat) (enc : Encoder) (act : ℚ → ℚ)
    (d : Decoder) (p' : Nat) (h : Decoder.init s pos enc act = .ok (d, p')) :
    d.hidden_layers = enc.hidden_layers.reverse ∧ d.activation = act ∧
      d.n_layers = enc.n_layers ∧ d.dropout_rate = enc.dropout_rate := by
  unfold Decoder.init at h
  dsimp only at h
  split at h
  · exact absurd h (by simp)
  · split at h
    · exact absurd h (by simp)
    · simp only [Except.ok.injEq, Prod.mk.injEq] at h
      obtain ⟨h1, -⟩ := h
      rw [← h1]
      exact ⟨rfl, rfl, rfl, rfl⟩

/-- C1.  In the pre-training loop the checkpoint test compares the rounded
epoch mean against `best_loss`, but the improving branch executes
`best_loss = loss`, i.e. stores the LAST batch's loss, not the epoch's mean.
Concretely (zero-weight model, identity update): epoch 0 has batch losses
`[4, 0]`, so its mean is `2`, yet afterwards `best_loss = 0` (the last batch)
and only epoch 0 checkpointed (`saveLog = [0]`).  Epoch 1 has mean `1`, which
is strictly below the best epoch mean seen so far (`2`), so under the claim a
checkpoint would be persisted and the comparison `ltBest 1 (some 2)` indeed
holds — but the code compares against the stale last-batch value `0`
(`ltBest 1 (some 0) = false`) and persists nothing. -/
theorem pretraining_best_loss_assignment_bug :
    (runEpochs (preEpochStep updId uAllOne batchesTwo) 0 2 stZ).map
      (fun st => (st.bestLoss, st.saveLog, st.means)) = some (some 0, [0], [2, 1]) ∧
    ltBest 1 (some 2) = true ∧ ltBest 1 (some 0) = false := by
  exact ⟨by decide, by decide, by decide⟩

/-- C2.  The fine-tuning cell never resets the `losses` accumulator: after a
one-epoch pre-training run with batch loss `4`, the first fine-tuning epoch
(single batch of loss `0`) reports `mean_loss = 2`, the mean of the stale list
`[4, 0]`, although the mean of that epoch's own batch losses is
`npRound5 (listMean [0]) = 0`. -/
theorem finetuning_stale_losses_bug :
    ((runEpochs (preEpochStep updId uAllOne batchesPre) 0 1 stZ).bind (fun st1 =>
      (fineTuneSetup st1).bind (fun st2 =>
        runEpochs (fineEpochStep updId uAllOne batchesFine) 0 1 st2))).map
      (fun st => (st.losses, st.means)) = some ([4, 0], [4, 2]) ∧
    npRound5 (listMean [0]) = 0 := by
  exact ⟨by decide, by decide⟩

/-- C3 counterexample.  Constructing an `Encoder` with the length-1 width
schedule `[10]` does not fail at all: it returns a model (with zero chained
layers), and a schedule containing the width `0` is accepted as well — no
`ConfigurationError` exists anywhere in the code. -/
theorem encoder_no_configuration_error :
    isOkE (Encoder.init sOne 0 784 [10] (1 / 5) relu) = true ∧
    (Encoder.init sOne 0 784 [10] (1 / 5) relu).toOption.map (fun ep => ep.1.n_layers)
      = some 0 ∧
    isOkE (Encoder.init sOne 0 784 [5, 0] (1 / 5) relu) = true := by
  exact ⟨by decide, by decide, by decide⟩

/-- C3 amended.  `Encoder.__init__` performs no width validation: construction
succeeds precisely when the width schedule is non-empty (an empty schedule
fails only because `hidden_layers[0]` raises `IndexError`), regardless of the
schedule's length or of zero widths. -/
theorem encoder_init_accepts_any_nonempty_schedule (s : Nat → ℚ) (pos input_size : Nat)
    (hs : List Nat) (rate : ℚ) (act : ℚ → ℚ) :
    isOkE (Encoder.init s pos input_size hs rate act) = !hs.isEmpty := by
  cases hs <;> rfl

/-- C4 counterexample.  A checkpoint whose stored topology (`input_width = 1`,
widths `[1, 1]`) disagrees with the model variable it is about to replace
(`input_width = 3`, widths `[2, 2]`) loads successfully: `torch.load` returns
the stored module wholesale and performs no topology comparison, so no
`CheckpointError` (and no failure at all) occurs on mismatch. -/
theorem checkpoint_load_ignores_topology :
    mSmall.hidden_layers = [1, 1] ∧ mSmall.encoder.input_size = 1 ∧
    mBig.hidden_layers = [2, 2] ∧ mBig.encoder.input_size = 3 ∧
    torchLoad storeMismatch preCkptPath = .ok mSmall := by
  exact ⟨by decide, by decide, by decide, by decide, rfl⟩

/-- C4 amended.  `torch.load` fails (with `FileNotFoundError`, not a
`CheckpointError`) exactly when the requested checkpoint is absent — in
particular the fine-tuning setup aborts when no pre-training checkpoint
exists; a present checkpoint always loads successfully and wholesale,
regardless of any topology mismatch with the model variable it replaces (the
previous model object itself is not partially written, the variable is simply
rebound), so mismatches are silently accepted rather than rejected. -/
theorem torchLoad_absent_fails_present_loads_wholesale :
    (∀ (store : Store) (path : String), store path = none →
      torchLoad store path = .error .fileNotFoundError) ∧
    (∀ (store : Store) (path : String) (m : AutoEncoder), store path = some m →
      torchLoad store path = .ok m) ∧
    (∀ st : TrainSt, st.store preCkptPath = none → fineTuneSetup st = none) := by
  refine ⟨?_, ?_, ?_⟩
  · intro store path h
    unfold torchLoad
    rw [h]
  · intro store path m h
    unfold torchLoad
    rw [h]
  · intro st h
    unfold fineTuneSetup torchLoad
    rw [h]

/-- C4 witness: the absent-checkpoint failure, the mismatch-accepting load and
the fine-tuning abort at concrete inputs. -/
theorem torchLoad_absent_fails_witness :
    torchLoad emptyStore preCkptPath = .error .fileNotFoundError ∧
    torchLoad storeMismatch preCkptPath = .ok mSmall ∧
    fineTuneSetup defaultTrainSt = none := by
  refine ⟨?_, ?_, ?_⟩
  · exact torchLoad_absent_fails_present_loads_wholesale.1 emptyStore preCkptPath rfl
  · exact torchLoad_absent_fails_present_loads_wholesale.2.1 storeMismatch preCkptPath mSmall
      (by rfl)
  · exact torchLoad_absent_fails_present_loads_wholesale.2.2 defaultTrainSt rfl

/-- C5.  The pre-trained-embedding evaluation cell loads the checkpoint and
immediately computes `model(Tensor(X))[0]` without calling `model.eval()`.
The checkpoint was saved during training, so the loaded module still has
`training = true`, dropout (rate `0.2`) stays active during the embedding
pass, and two runs over the same data with different dropout draws produce
different embedding matrices (`[[19/4]]` versus `[[1]]` for the concrete
all-ones model after one pre-training epoch). -/
theorem evaluation_skips_eval_mode_bug :
    ((torchLoad storeO preCkptPath).toOption.map AutoEncoder.training) = some true ∧
    evalPretrainedEmbed storeO uKeep [[1]] = some [[19 / 4]] ∧
    evalPretrainedEmbed storeO uDrop [[1]] = some [[1]] := by
  exact ⟨by decide, by decide, by decide⟩

/-- C9.  The `activation` argument of `AutoEncoder.__init__` is never
forwarded: construction is literally independent of it, both submodules end
up with the default `nn.ReLU()`, and two models built with different
activation arguments (same initialization stream) compute identical forward
outputs on every input. -/
theorem activation_argument_ignored (s : Nat → ℚ) (pos input_size : Nat) (hs : List Nat)
    (rate : ℚ) (act1 act2 : ℚ → ℚ) :
    AutoEncoder.init s pos input_size hs rate act1
      = AutoEncoder.init s pos input_size hs rate act2 ∧
    (∀ mdl p', AutoEncoder.init s pos input_size hs rate act1 = .ok (mdl, p') →
      mdl.encoder.activation = relu ∧ mdl.decoder.activation = relu) ∧
    (∀ mdl1 p1 mdl2 p2 (u : Nat → Nat → ℚ) (x : List ℚ),
      AutoEncoder.init s pos input_size hs rate act1 = .ok (mdl1, p1) →
      AutoEncoder.init s pos input_size hs rate act2 = .ok (mdl2, p2) →
      mdl1.forward u x = mdl2.forward u x) := by
  refine ⟨rfl, ?_, ?_⟩
  · intro mdl p' h
    unfold AutoEncoder.init at h
    split at h
    · exact absurd h (by simp)
    · split at h
      · exact absurd h (by simp)
      · simp only [Except.ok.injEq, Prod.mk.injEq] at h
        obtain ⟨h1, -⟩ := h
        rw [← h1]
        constructor
        · exact Encoder.init_activation _ _ _ _ _ _ _ _ (by assumption)
        · exact (Decoder.init_fields _ _ _ _ _ _ (by assumption)).2.1
  · intro mdl1 p1 mdl2 p2 u x h1 h2
    have he : AutoEncoder.init s pos input_size hs rate act1
        = AutoEncoder.init s pos input_size hs rate act2 := rfl
    rw [← he, h1] at h2
    simp only [Except.ok.injEq, Prod.mk.injEq] at h2
    rw [h2.1]

/-- C9 witness: the construction with the identity activation yields the same
forward outputs as the default construction at a concrete input. -/
theorem activation_argument_ignored_witness :
    mSmall.forward (uKeep 0) [1] = mSmallId.forward (uKeep 0) [1] := by
  exact (activation_argument_ignored sOne 0 1 [1, 1] (1 / 5) relu (fun v => v)).2.2
    mSmall 8 mSmallId 8 (uKeep 0) [1] rfl rfl

/-- One fine-tuning epoch leaves the learning rate untouched, appends exactly
its own epoch index to the save log, leaves `best_loss` alone (it is never
consulted), and leaves the fine-tuning checkpoint path holding exactly the
epoch-end model. -/
theorem fineEpochStep_fields (upd : ℚ → AutoEncoder → List (List ℚ) → AutoEncoder)
    (u : Nat → Nat → Nat → Nat → Nat → ℚ) (batches : Nat → List (List (List ℚ)))
    (e : Nat) (st st' : TrainSt) (h : fineEpochStep upd u batches e st = some st') :
    st'.lr = st.lr ∧ st'.saveLog = st.saveLog ++ [e] ∧
      st'.store fineCkptPath = some st'.model ∧ st'.bestLoss = st.bestLoss := by
  unfold fineEpochStep at h
  split at h
  · exact absurd h (by simp)
  · simp only [Option.some.injEq] at h
    rw [← h]
    refine ⟨rfl, rfl, ?_, rfl⟩
    simp [torchSave]

/-- C8.  A fine-tuning run of any length keeps the learning rate it started
with (no scheduler exists in that phase) and executes an unconditional
checkpoint save at the end of every single epoch: the save log grows by
exactly the epoch indices `e, ..., e + n - 1` of the run (one save per epoch,
with no condition on loss improvement anywhere), and after at least one epoch
the fine-tuning checkpoint path holds the latest model. -/
theorem finetuning_fixed_lr_unconditional_checkpoint
    (upd : ℚ → AutoEncoder → List (List ℚ) → AutoEncoder)
    (u : Nat → Nat → Nat → Nat → Nat → ℚ) (batches : Nat → List (List (List ℚ))) :
    ∀ (n e : Nat) (st st' : TrainSt),
      runEpochs (fineEpochStep upd u batches) e n st = some st' →
      st'.lr = st.lr ∧ st'.saveLog = st.saveLog ++ epochsFrom e n ∧
        (epochsFrom e n).length = n ∧
        (1 ≤ n → st'.store fineCkptPath = some st'.model) := by
  intro n
  induction n with
  | zero =>
    intro e st st' h
    simp only [runEpochs, Option.some.injEq] at h
    rw [← h]
    refine ⟨rfl, by simp [epochsFrom], rfl, ?_⟩
    intro hle
    exact absurd hle (by omega)
  | succ n ih =>
    intro e st st' h
    unfold runEpochs at h
    split at h
    · exact absurd h (by simp)
    · rename_i st1 hstep
      obtain ⟨hlr, hlog, hsave, -⟩ := fineEpochStep_fields upd u batches e st st1 hstep
      obtain ⟨ihlr, ihlog, ihlen, ihsave⟩ := ih (e + 1) st1 st' h
      refine ⟨ihlr.trans hlr, ?_, ?_, ?_⟩
      · rw [ihlog, hlog, List.append_assoc]
        rfl
      · simp only [epochsFrom, List.length_cons, ihlen]
      · intro hle
        rcases Nat.eq_zero_or_pos n with hn | hn
        · subst hn
          simp only [runEpochs, Option.some.injEq] at h
          rw [← h]
          exact hsave
        · exact ihsave hn

/-- C8 witness: a concrete two-epoch fine-tuning run keeps `lr` and saves at
both epochs. -/
theorem finetuning_fixed_lr_unconditional_checkpoint_witness :
    stFine2.lr = stZ.lr ∧ stFine2.saveLog = stZ.saveLog ++ epochsFrom 0 2 ∧
      (epochsFrom 0 2).length = 2 ∧
      (1 ≤ 2 → stFine2.store fineCkptPath = some stFine2.model) := by
  exact finetuning_fixed_lr_unconditional_checkpoint updId uAllOne batchesFine 2 0 stZ
    stFine2 rfl

/-- The batch loop only changes the model through the parameter update `upd`,
so any update that preserves the `training` flag (as `optimizer.step()` does)
makes the loop preserve it. -/
theorem runBatches_training (upd : ℚ → AutoEncoder → List (List ℚ) → AutoEncoder)
    (hupd : ∀ lr m b, (upd lr m b).training = m.training) (lr : ℚ)
    (u : Nat → Nat → Nat → Nat → ℚ) :
    ∀ (bs : List (List (List ℚ))) (b : Nat) (m : AutoEncoder) (ls : List ℚ)
      (m' : AutoEncoder) (ls' : List ℚ),
      runBatches upd lr u bs b m ls = some (m', ls') → m'.training = m.training := by
  intro bs
  induction bs with
  | nil =>
    intro b m ls m' ls' h
    simp only [runBatches, Option.some.injEq, Prod.mk.injEq] at h
    rw [← h.1]
  | cons xb rest ih =>
    intro b m ls m' ls' h
    unfold runBatches at h
    split at h
    · exact absurd h (by simp)
    · exact (ih _ _ _ _ _ h).trans (hupd lr m xb)

/-- One fine-tuning epoch preserves the model's `training` flag when the
parameter update does. -/
theorem fineEpochStep_training (upd : ℚ → AutoEncoder → List (List ℚ) → AutoEncoder)
    (hupd : ∀ lr m b, (upd lr m b).training = m.training)
    (u : Nat → Nat → Nat → Nat → Nat → ℚ) (batches : Nat → List (List (List ℚ)))
    (e : Nat) (st st' : TrainSt) (h : fineEpochStep upd u batches e st = some st') :
    st'.model.training = st.model.training := by
  unfold fineEpochStep at h
  split at h
  · exact absurd h (by simp)
  · rename_i m1 ls hrb
    simp only [Option.some.injEq] at h
    rw [← h]
    exact runBatches_training upd hupd st.lr (u e) (batches e) 0 st.model st.losses m1 ls hrb

/-- One pre-training epoch preserves the model's `training` flag when the
parameter update does. -/
theorem preEpochStep_training (upd : ℚ → AutoEncoder → List (List ℚ) → AutoEncoder)
    (hupd : ∀ lr m b, (upd lr m b).training = m.training)
    (u : Nat → Nat → Nat → Nat → Nat → ℚ) (batches : Nat → List (List (List ℚ)))
    (e : Nat) (st st' : TrainSt) (h : preEpochStep upd u batches e st = some st') :
    st'.model.training = st.model.training := by
  unfold preEpochStep at h
  split at h
  · exact absurd h (by simp)
  · rename_i m1 ls hrb
    have hm1 : m1.training = st.model.training :=
      runBatches_training upd hupd st.lr (u e) (batches e) 0 st.model [] m1 ls hrb
    dsimp only at h
    split at h <;> (try split at h) <;> (try split at h) <;>
      first
      | (simp only [Option.some.injEq] at h
         rw [← h]
         exact hm1)
      | exact absurd h (by simp)

/-- An arbitrary-length epoch loop preserves any property that each step
preserves. -/
theorem runEpochs_invariant (step : Nat → TrainSt → Option TrainSt) (Q : TrainSt → Prop)
    (hstep : ∀ e st st', step e st = some st' → Q st → Q st') :
    ∀ (n e : Nat) (st st' : TrainSt),
      runEpochs step e n st = some st' → Q st → Q st' := by
  intro n
  induction n with
  | zero =>
    intro e st st' h hq
    simp only [runEpochs, Option.some.injEq] at h
    rw [← h]
    exact hq
  | succ n ih =>
    intro e st st' h hq
    unfold runEpochs at h
    split at h
    · exact absurd h (by simp)
    · rename_i st1 h1
      exact ih (e + 1) st1 st' h (hstep e st st1 h1 hq)

/-- C10.  The fine-tuning cell calls `model.eval()` right after loading the
checkpoint and nothing in its loop ever switches the mode back, so every
fine-tuning epoch (any prefix of the run) executes with `training = false`,
where dropout is literally the identity; by contrast the pre-training cell
calls `model.train()` and its loop keeps `training = true`, the mode in which
dropout genuinely rescales and zeroes entries. -/
theorem finetuning_eval_mode_invariant :
    (∀ (upd : ℚ → AutoEncoder → List (List ℚ) → AutoEncoder),
      (∀ lr m b, (upd lr m b).training = m.training) →
      ∀ (u : Nat → Nat → Nat → Nat → Nat → ℚ) (batches : Nat → List (List (List ℚ)))
        (st st1 : TrainSt) (e k : Nat) (st2 : TrainSt),
        fineTuneSetup st = some st1 →
        runEpochs (fineEpochStep upd u batches) e k st1 = some st2 →
        st1.model.training = false ∧ st2.model.training = false) ∧
    (∀ (p : ℚ) (uu : Nat → ℚ) (x : List ℚ), dropoutApp false p uu x = x) ∧
    (∃ (p : ℚ) (uu : Nat → ℚ) (x : List ℚ), dropoutApp true p uu x ≠ x) ∧
    (∀ (upd : ℚ → AutoEncoder → List (List ℚ) → AutoEncoder),
      (∀ lr m b, (upd lr m b).training = m.training) →
      ∀ (u : Nat → Nat → Nat → Nat → Nat → ℚ) (batches : Nat → List (List (List ℚ)))
        (s : Nat → ℚ) (pos input_size : Nat) (hs : List Nat) (rate : ℚ) (store0 : Store)
        (st0 : TrainSt) (e k : Nat) (st' : TrainSt),
        preTrainInit s pos input_size hs rate store0 = .ok st0 →
        runEpochs (preEpochStep upd u batches) e k st0 = some st' →
        st0.model.training = true ∧ st'.model.training = true) := by
  refine ⟨?_, ?_, ?_, ?_⟩
  · intro upd hupd u batches st st1 e k st2 hsetup hrun
    have h1 : st1.model.training = false := by
      unfold fineTuneSetup at hsetup
      split at hsetup
      · exact absurd hsetup (by simp)
      · simp only [Option.some.injEq] at hsetup
        rw [← hsetup]
        rfl
    refine ⟨h1, ?_⟩
    have := runEpochs_invariant (fineEpochStep upd u batches)
      (fun st => st.model.training = false)
      (fun e st st' h hq => (fineEpochStep_training upd hupd u batches e st st' h).trans hq)
      k e st1 st2 hrun h1
    exact this
  · intro p uu x
    rfl
  · refine ⟨1 / 2, fun _ => 0, [1], ?_⟩
    decide
  · intro upd hupd u batches s pos input_size hs rate store0 st0 e k st' hinit hrun
    have h0 : st0.model.training = true := by
      unfold preTrainInit at hinit
      split at hinit
      · exact absurd hinit (by simp)
      · simp only [Except.ok.injEq] at hinit
        rw [← hinit]
        rfl
    refine ⟨h0, ?_⟩
    exact runEpochs_invariant (preEpochStep upd u batches)
      (fun st => st.model.training = true)
      (fun e st st' h hq => (preEpochStep_training upd hupd u batches e st st' h).trans hq)
      k e st0 st' hrun h0

/-- C10 witness: the concrete pipeline — pre-train one epoch in training mode,
set up fine-tuning, run one fine-tuning epoch — has `training = false` from
the setup onward and `training = true` throughout pre-training. -/
theorem finetuning_eval_mode_invariant_witness :
    (stSetup.model.training = false ∧ stFineRun.model.training = false) ∧
    (stO.model.training = true ∧ stAfterPre.model.training = true) := by
  refine ⟨?_, ?_⟩
  · exact finetuning_eval_mode_invariant.1 updId (fun _ _ _ => rfl) uAllOne batchesOne
      stAfterPre stSetup 0 1 stFineRun rfl rfl
  · exact finetuning_eval_mode_invariant.2.2.2 updId (fun _ _ _ => rfl) uAllOne batchesOne
      sOne 0 1 [1, 1, 1] (1 / 5) emptyStore stO 0 1 stAfterPre rfl rfl

/-- Applying a constructed linear layer always yields one output entry per
`out_features`, whatever the input vector. -/
theorem mkLinear_app_length (s : Nat → ℚ) (pos a b : Nat) (x : List ℚ) :
    ((mkLinear s pos a b).1.app x).length = b := by
  simp [mkLinear, Linear.app]

/-- The encoder chain has one layer per consecutive pair of widths. -/
theorem mkChain_length (s : Nat → ℚ) : ∀ (ws : List Nat) (pos : Nat),
    ((mkChain s pos ws).1).length = ws.length - 1 := by
  intro ws
  induction ws with
  | nil => intro pos; rfl
  | cons a t ih =>
    intro pos
    cases t with
    | nil => rfl
    | cons b r =>
      simp only [mkChain, List.length_cons, ih]
      omega

/-- The last layer of an encoder chain (position `len - 2`) is a constructed
linear layer whose `out_features` is the last width of the schedule. -/
theorem mkChain_last (s : Nat → ℚ) : ∀ (ws : List Nat) (pos : Nat), 2 ≤ ws.length →
    ∃ l q a b, ((mkChain s pos ws).1).get? (ws.length - 2) = some l ∧
      l = (mkLinear s q a b).1 ∧ ws.getLast? = some b := by
  intro ws
  induction ws with
  | nil => intro pos h; simp at h
  | cons a t ih =>
    intro pos h
    cases t with
    | nil => simp at h
    | cons b r =>
      cases r with
      | nil => exact ⟨(mkLinear s pos a b).1, pos, a, b, rfl, rfl, rfl⟩
      | cons c rr =>
        obtain ⟨l, q, aa, bb, hget, hl, hlast⟩ :=
          ih (mkLinear s pos a b).2 (by simp only [List.length_cons]; omega)
        refine ⟨l, q, aa, bb, ?_, hl, ?_⟩
        · have hidx : (a :: b :: c :: rr).length - 2 = ((b :: c :: rr).length - 2) + 1 := by
            simp only [List.length_cons]
            omega
          rw [hidx]
          exact hget
        · rw [List.getLast?_cons_cons]
          exact hlast

/-- The per-layer loop succeeds whenever it stays within the layer list. -/
theorem denseLoop_isSome (act : ℚ → ℚ) (p : ℚ) (tr : Bool) (u : Nat → Nat → ℚ)
    (dense : List Linear) : ∀ (rem i : Nat) (x : List ℚ), i + rem ≤ dense.length →
    ∃ y, denseLoop act p tr u dense i rem x = some y := by
  intro rem
  induction rem with
  | zero => intro i x h; exact ⟨x, rfl⟩
  | succ rem ih =>
    intro i x h
    obtain ⟨l, hl⟩ : ∃ l, dense.get? i = some l := by
      cases hga : dense.get? i with
      | none => exact absurd (List.get?_eq_none.mp hga) (by omega)
      | some l => exact ⟨l, rfl⟩
    obtain ⟨y, hy⟩ := ih (i + 1)
      (dropoutApp tr p (u i) ((l.app x).map act)) (by omega)
    refine ⟨y, ?_⟩
    simp only [denseLoop, hl]
    exact hy

/-- The decoder chain construction succeeds, with one layer per iteration,
whenever the loop bound stays within the width list. -/
theorem mkChainN_ok (s : Nat → ℚ) (ws : List Nat) : ∀ (rem i pos : Nat),
    i + rem < ws.length ∨ rem = 0 →
    ∃ L p', mkChainN s ws pos i rem = .ok (L, p') ∧ L.length = rem := by
  intro rem
  induction rem with
  | zero => intro i pos _; exact ⟨[], pos, rfl, rfl⟩
  | succ rem ih =>
    intro i pos h
    rcases h with h | h
    · obtain ⟨a, ha⟩ : ∃ a, ws.get? i = some a := by
        cases hga : ws.get? i with
        | none => exact absurd (List.get?_eq_none.mp hga) (by omega)
        | some a => exact ⟨a, rfl⟩
      obtain ⟨b, hb⟩ : ∃ b, ws.get? (i + 1) = some b := by
        cases hgb : ws.get? (i + 1) with
        | none => exact absurd (List.get?_eq_none.mp hgb) (by omega)
        | some b => exact ⟨b, rfl⟩
      obtain ⟨L, p2, hrec, hL⟩ := ih (i + 1) (mkLinear s pos a b).2 (by left; omega)
      refine ⟨(mkLinear s pos a b).1 :: L, p2, ?_, by simp [hL]⟩
      simp only [mkChainN, ha, hb, hrec]
    · exact absurd h (by omega)

/-- A successful encoder construction, with all its stored fields. -/
theorem encoderInit_ok (s : Nat → ℚ) (pos input_size : Nat) (h0 : Nat) (rest : List Nat)
    (rate : ℚ) (act : ℚ → ℚ) :
    ∃ enc p', Encoder.init s pos input_size (h0 :: rest) rate act = .ok (enc, p') ∧
      enc.input_size = input_size ∧ enc.hidden_layers = h0 :: rest ∧
      enc.n_layers = (h0 :: rest).length - 1 ∧ enc.activation = act ∧
      enc.dense = (mkChain s (mkLinear s pos input_size h0).2 (h0 :: rest)).1 := by
  exact ⟨_, _, rfl, rfl, rfl, rfl, rfl, rfl⟩

/-- A decoder construction from an encoder whose `n_layers` stays within its
width list succeeds; the decoder has `n_layers` chained layers and an
output-projection layer back to the encoder's `input_size`. -/
theorem decoderInit_ok (s : Nat → ℚ) (pos : Nat) (enc : Encoder) (act : ℚ → ℚ)
    (hn : enc.n_layers < enc.hidden_layers.length) (hne : enc.hidden_layers ≠ []) :
    ∃ d p', Decoder.init s pos enc act = .ok (d, p') ∧
      d.dense.length = enc.n_layers ∧ d.n_layers = enc.n_layers ∧
      d.activation = act ∧ d.dropout_rate = enc.dropout_rate ∧
      ∃ q w, d.output_layer = (mkLinear s q w enc.input_size).1 := by
  obtain ⟨L, p1, hC, hL⟩ := mkChainN_ok s enc.hidden_layers.reverse enc.n_layers 0 pos
    (by left; rw [List.length_reverse]; omega)
  obtain ⟨wlast, hw⟩ : ∃ w, enc.hidden_layers.reverse.getLast? = some w := by
    cases hgl : enc.hidden_layers.reverse.getLast? with
    | none => exact absurd (List.getLast?_eq_none_iff.mp hgl) (by simp [hne])
    | some w => exact ⟨w, rfl⟩
  refine ⟨⟨enc.hidden_layers.reverse, L, (mkLinear s p1 wlast enc.input_size).1,
    enc.n_layers, act, enc.dropout_rate⟩, (mkLinear s p1 wlast enc.input_size).2,
    ?_, hL, rfl, rfl, rfl, p1, wlast, rfl⟩
  unfold Decoder.init
  simp only [hC, hw]

/-- C6.  For every valid width schedule of length at least 2 and every input
vector of length `input_width`, the forward pass of a constructed autoencoder
succeeds and returns a pair whose reconstruction has the same length as the
input and whose embedding has length equal to the schedule's last element. -/
theorem autoencoder_forward_shapes (s : Nat → ℚ) (pos input_size : Nat) (hs : List Nat)
    (rate : ℚ) (act : ℚ → ℚ) (mdl : AutoEncoder) (p' : Nat) (u : Nat → Nat → ℚ)
    (x : List ℚ) (hlen : 2 ≤ hs.length) (hpos : ∀ w ∈ hs, 0 < w)
    (hinit : AutoEncoder.init s pos input_size hs rate act = .ok (mdl, p'))
    (hx : x.length = input_size) :
    ∃ emb recon, mdl.forward u x = some (emb, recon) ∧
      recon.length = input_size ∧ hs.getLast? = some emb.length := by
  obtain ⟨h0, rest, rfl⟩ : ∃ h0 rest, hs = h0 :: rest := by
    cases hs with
    | nil => simp at hlen
    | cons a t => exact ⟨a, t, rfl⟩
  obtain ⟨enc, p1, hE, hEin, hEhl, hEn, hEact, hEdense⟩ :=
    encoderInit_ok s pos input_size h0 rest rate relu
  obtain ⟨dec0, pd, hD, hdl, hdn, hdact, hdrate, q2, w2, hout⟩ :=
    decoderInit_ok s p1 enc relu
      (by rw [hEn, hEhl]; simp only [List.length_cons]; omega)
      (by rw [hEhl]; simp)
  simp only [AutoEncoder.init, hE, hD] at hinit
  simp only [Except.ok.injEq, Prod.mk.injEq] at hinit
  obtain ⟨hm, -⟩ := hinit
  subst hm
  have hdlen : enc.dense.length = (h0 :: rest).length - 1 := by
    rw [hEdense, mkChain_length]
  obtain ⟨xm, hxm⟩ := denseLoop_isSome enc.activation enc.dropout_rate true
    (fun i => u (2 * i)) enc.dense (enc.n_layers - 1) 0
    ((enc.input_layer.app x).map enc.activation) (by rw [hdlen, hEn]; omega)
  obtain ⟨outL, q, wa, wb, hget, hlform, hlast⟩ :=
    mkChain_last s (h0 :: rest) (mkLinear s pos input_size h0).2 hlen
  have hget' : enc.dense.get? (enc.n_layers - 1) = some outL := by
    rw [hEdense, hEn]
    have hidx : (h0 :: rest).length - 1 - 1 = (h0 :: rest).length - 2 := by omega
    rw [hidx]
    exact hget
  have hEf : Encoder.forward enc true (fun i => u (2 * i)) x = some (outL.app xm) := by
    unfold Encoder.forward
    simp only [hxm, hget']
  obtain ⟨ym, hym⟩ := denseLoop_isSome dec0.activation dec0.dropout_rate true
    (fun i => u (2 * i + 1)) dec0.dense dec0.n_layers 0 (outL.app xm)
    (by rw [hdl, hdn]; omega)
  have hDf : Decoder.forward dec0 true (fun i => u (2 * i + 1)) (outL.app xm)
      = some (dec0.output_layer.app ym) := by
    unfold Decoder.forward
    simp only [hym]
  refine ⟨outL.app xm, dec0.output_layer.app ym, ?_, ?_, ?_⟩
  · unfold AutoEncoder.forward
    simp only [hEf, hDf]
  · rw [hout, mkLinear_app_length, hEin]
  · rw [hlform, mkLinear_app_length]
    exact hlast

/-- C6 witness: the concrete `[1, 1]` model on input `[1]` produces a
reconstruction of length 1 and an embedding of length 1 (the schedule's last
element). -/
theorem autoencoder_forward_shapes_witness :
    ∃ emb recon, mSmall.forward (uKeep 0) [1] = some (emb, recon) ∧
      recon.length = 1 ∧ [1, 1].getLast? = some emb.length := by
  exact autoencoder_forward_shapes sOne 0 1 [1, 1] (1 / 5) relu mSmall 8 (uKeep 0) [1]
    (by decide) (by decide) rfl rfl

/-- C7 counterexample.  Decoders derived from encoders with the mutually
reversed schedules `[1, 2, 3]` and `[3, 2, 1]` (same input width 4) do NOT
have identical topology: their layer signatures are `[(3,2), (2,1), (1,4)]`
and `[(1,2), (2,3), (3,4)]` respectively — each is the reverse-derived chain
of its own encoder, so the two are mutually reversed, not equal. -/
theorem decoder_topology_not_schedule_symmetric :
    enc123.1.hidden_layers = [1, 2, 3] ∧ enc321.1.hidden_layers = [3, 2, 1] ∧
    dec123.topology = [(3, 2), (2, 1), (1, 4)] ∧
    dec321.topology = [(1, 2), (2, 3), (3, 4)] ∧
    dec123.topology ≠ dec321.topology := by
  exact ⟨by decide, by decide, by decide, by decide, by decide⟩

/-- A linear layer's parameters depend only on the stream segment it was
constructed from. -/
theorem mkLinear_congr (s s' : Nat → ℚ) (pos a b : Nat)
    (hag : ∀ n, pos ≤ n → n < pos + (b * a + b) → s n = s' n) :
    mkLinear s pos a b = mkLinear s' pos a b := by
  have hW : (List.range b).map (fun i => (List.range a).map (fun j => s (pos + i * a + j)))
      = (List.range b).map (fun i => (List.range a).map (fun j => s' (pos + i * a + j))) := by
    apply List.map_congr_left
    intro i hi
    apply List.map_congr_left
    intro j hj
    have hi' : i < b := List.mem_range.mp hi
    have hj' : j < a := List.mem_range.mp hj
    apply hag
    · omega
    · have h1 : (i + 1) * a ≤ b * a := Nat.mul_le_mul_right a hi'
      have h2 : i * a + j < (i + 1) * a := by
        rw [Nat.succ_mul]
        omega
      omega
  have hB : (List.range b).map (fun i => s (pos + b * a + i))
      = (List.range b).map (fun i => s' (pos + b * a + i)) := by
    apply List.map_congr_left
    intro i hi
    have hi' : i < b := List.mem_range.mp hi
    exact hag _ (by omega) (by omega)
  unfold mkLinear
  rw [hW, hB]

/-- The decoder chain construction only moves the stream position forward. -/
theorem mkChainN_mono (s : Nat → ℚ) (ws : List Nat) : ∀ (rem i pos : Nat) (L : List Linear)
    (p' : Nat), mkChainN s ws pos i rem = .ok (L, p') → pos ≤ p' := by
  intro rem
  induction rem with
  | zero =>
    intro i pos L p' h
    simp only [mkChainN, Except.ok.injEq, Prod.mk.injEq] at h
    omega
  | succ rem ih =>
    intro i pos L p' h
    cases hga : ws.get? i with
    | none =>
      unfold mkChainN at h
      simp only [hga] at h
      exact absurd h (by simp)
    | some a =>
      cases hgb : ws.get? (i + 1) with
      | none =>
        unfold mkChainN at h
        simp only [hga, hgb] at h
        exact absurd h (by simp)
      | some b =>
        unfold mkChainN at h
        simp only [hga, hgb] at h
        cases hrec : mkChainN s ws (mkLinear s pos a b).2 (i + 1) rem with
        | error e =>
          simp only [hrec] at h
          exact absurd h (by simp)
        | ok v =>
          obtain ⟨ls2, p2⟩ := v
          simp only [hrec, Except.ok.injEq, Prod.mk.injEq] at h
          have hrest : (mkLinear s pos a b).2 ≤ p2 := ih (i + 1) _ ls2 p2 hrec
          have hsz : (mkLinear s pos a b).2 = pos + b * a + b := rfl
          omega

/-- The decoder chain's layers depend only on the stream segment between the
start position and the returned end position. -/
theorem mkChainN_congr (s s' : Nat → ℚ) (ws : List Nat) : ∀ (rem i pos : Nat)
    (L : List Linear) (p' : Nat),
    mkChainN s ws pos i rem = .ok (L, p') →
    (∀ n, pos ≤ n → n < p' → s n = s' n) →
    mkChainN s' ws pos i rem = .ok (L, p') := by
  intro rem
  induction rem with
  | zero =>
    intro i pos L p' h _
    exact h
  | succ rem ih =>
    intro i pos L p' h hag
    cases hga : ws.get? i with
    | none =>
      unfold mkChainN at h
      simp only [hga] at h
      exact absurd h (by simp)
    | some a =>
      cases hgb : ws.get? (i + 1) with
      | none =>
        unfold mkChainN at h
        simp only [hga, hgb] at h
        exact absurd h (by simp)
      | some b =>
        unfold mkChainN at h
        simp only [hga, hgb] at h
        cases hrec : mkChainN s ws (mkLinear s pos a b).2 (i + 1) rem with
        | error e =>
          simp only [hrec] at h
          exact absurd h (by simp)
        | ok v =>
          obtain ⟨ls2, p2⟩ := v
          simp only [hrec, Except.ok.injEq, Prod.mk.injEq] at h
          obtain ⟨hls, hp⟩ := h
          have hrest : (mkLinear s pos a b).2 ≤ p2 := mkChainN_mono s ws rem (i + 1) _ ls2 p2 hrec
          have hsz : (mkLinear s pos a b).2 = pos + b * a + b := rfl
          have hlin : mkLinear s' pos a b = mkLinear s pos a b :=
            (mkLinear_congr s s' pos a b (fun n hn1 hn2 => hag n hn1 (by omega))).symm
          have hrec' : mkChainN s' ws (mkLinear s' pos a b).2 (i + 1) rem = .ok (ls2, p2) := by
            rw [hlin]
            exact ih (i + 1) (mkLinear s pos a b).2 ls2 p2 hrec
              (fun n hn1 hn2 => hag n (by omega) (by omega))
          unfold mkChainN
          simp only [hga, hgb, hrec']
          rw [hlin, hls, hp]

/-- A successful decoder construction moves the stream position forward and
depends only on its own stream segment `[pos, p')` — so a second construction
started at `p'` draws from a disjoint segment: its parameters are independent
of the first decoder's. -/
theorem Decoder.init_local (s s' : Nat → ℚ) (pos : Nat) (enc : Encoder) (act : ℚ → ℚ)
    (d : Decoder) (p' : Nat) (h : Decoder.init s pos enc act = .ok (d, p')) :
    pos ≤ p' ∧ ((∀ n, pos ≤ n → n < p' → s n = s' n) →
      Decoder.init s' pos enc act = .ok (d, p')) := by
  unfold Decoder.init at h ⊢
  dsimp only at h ⊢
  cases hC : mkChainN s enc.hidden_layers.reverse pos 0 enc.n_layers with
  | error e =>
    simp only [hC] at h
    exact absurd h (by simp)
  | ok v =>
    obtain ⟨ds, p1⟩ := v
    simp only [hC] at h
    cases hgl : enc.hidden_layers.reverse.getLast? with
    | none =>
      simp only [hgl] at h
      exact absurd h (by simp)
    | some wlast =>
      simp only [hgl] at h
      simp only [Except.ok.injEq, Prod.mk.injEq] at h
      obtain ⟨hd, hp⟩ := h
      have hmono1 : pos ≤ p1 := mkChainN_mono s _ enc.n_layers 0 pos ds p1 hC
      have hp' : p' = p1 + enc.input_size * wlast + enc.input_size := by
        rw [← hp]
        rfl
      constructor
      · omega
      · intro hag
        have hC' : mkChainN s' enc.hidden_layers.reverse pos 0 enc.n_layers = .ok (ds, p1) :=
          mkChainN_congr s s' _ enc.n_layers 0 pos ds p1 hC
            (fun n hn1 hn2 => hag n hn1 (by omega))
        have hlin : mkLinear s' p1 wlast enc.input_size = mkLinear s p1 wlast enc.input_size :=
          (mkLinear_congr s s' p1 wlast enc.input_size
            (fun n hn1 hn2 => hag n (by omega) (by omega))).symm
        simp only [hC', hgl, hlin]
        rw [← hd, ← hp]

/-- The derived decoder signature of the schedule `[a, b, c]` with input width
`m`: layers `c → b`, `b → a` and the output projection `a → m`. -/
theorem decoderTopoOf_triple (s : Nat → ℚ) (pos input_size a b c : Nat) (rate : ℚ) :
    decoderTopoOf s pos input_size [a, b, c] rate
      = some [(c, b), (b, a), (a, input_size)] := rfl

/-- C7 amended.  For every Encoder, the derived Decoder's width sequence is
exactly the reverse of the Encoder's schedule (never specified by a caller);
two Decoders built from Encoders with schedules `[a, b, c]` and `[c, b, a]`
have MUTUALLY REVERSED topologies, identical precisely when `a = c`; and each
Decoder construction draws its parameters from its own stream segment
`[pos, p')` only (so sequential constructions use disjoint segments and are
independently initialized). -/
theorem decoder_derived_reversed_topology :
    (∀ (s : Nat → ℚ) (pos : Nat) (enc : Encoder) (act : ℚ → ℚ) (d : Decoder) (p' : Nat),
      Decoder.init s pos enc act = .ok (d, p') →
      d.hidden_layers = enc.hidden_layers.reverse) ∧
    (∀ (s1 s2 : Nat → ℚ) (q1 q2 input_size a b c : Nat) (r1 r2 : ℚ)
      (t1 t2 : List (Nat × Nat)),
      decoderTopoOf s1 q1 input_size [a, b, c] r1 = some t1 →
      decoderTopoOf s2 q2 input_size [c, b, a] r2 = some t2 →
      (t1 = t2 ↔ a = c)) ∧
    (∀ (s s' : Nat → ℚ) (pos : Nat) (enc : Encoder) (act : ℚ → ℚ) (d : Decoder) (p' : Nat),
      Decoder.init s pos enc act = .ok (d, p') →
      pos ≤ p' ∧ ((∀ n, pos ≤ n → n < p' → s n = s' n) →
        Decoder.init s' pos enc act = .ok (d, p'))) := by
  refine ⟨?_, ?_, ?_⟩
  · intro s pos enc act d p' h
    exact (Decoder.init_fields s pos enc act d p' h).1
  · intro s1 s2 q1 q2 input_size a b c r1 r2 t1 t2 h1 h2
    rw [decoderTopoOf_triple] at h1
    rw [decoderTopoOf_triple] at h2
    simp only [Option.some.injEq] at h1 h2
    subst h1
    subst h2
    constructor
    · intro h
      simp only [List.cons.injEq, Prod.mk.injEq, and_true] at h
      omega
    · intro h
      subst h
      rfl
  · intro s s' pos enc act d p' h
    exact Decoder.init_local s s' pos enc act d p' h

/-- C7 witness: the reverse property, the topology comparison and the
segment-locality statement at the concrete `[1, 2, 3]` / `[3, 2, 1]`
decoders. -/
theorem decoder_derived_reversed_topology_witness :
    dp123.1.hidden_layers = enc123.1.hidden_layers.reverse ∧
    (dec123.topology = dec321.topology ↔ (1 : Nat) = 3) ∧
    (enc123.2 ≤ dp123.2 ∧ Decoder.init sOne enc123.2 enc123.1 relu = .ok (dp123.1, dp123.2)) := by
  refine ⟨?_, ?_, ?_⟩
  · exact decoder_derived_reversed_topology.1 sOne enc123.2 enc123.1 relu dp123.1 dp123.2 rfl
  · exact decoder_derived_reversed_topology.2.1 sOne sOne 0 0 4 1 2 3 (1 / 5) (1 / 5)
      dec123.topology dec321.topology rfl rfl
  · have h := decoder_derived_reversed_topology.2.2 sOne sOne enc123.2 enc123.1 relu
      dp123.1 dp123.2 rfl
    exact ⟨h.1, h.2 (fun n _ _ => rfl)⟩

end
